import Mathlib

/-!
Shallow embedding of the transaction module of prosemirror-state
(file src/transaction.js).  The external collaborators — the structural
transform/edit log, the document tree, the selection hierarchy and the
mark model — are represented by a record of oracle functions (`Model`)
together with small concrete structures for exactly the data the
transaction code itself inspects: step position maps (through their
forEach callback), content slices (through lastChild / openRight /
isInline / isTextblock), and metadata keys (through the JS expression
typeof key == "string" ? key : key.key).
-/

namespace PMState

/-- One range reported by a step position map's forEach callback, in the
order (oldStart, oldEnd, newStart, newEnd). -/
structure MapRange where
  oldStart : Nat
  oldEnd : Nat
  newStart : Nat
  newEnd : Nat
  deriving DecidableEq

/-- A step position map, as the transaction code consumes it through
forEach: the list of mapped ranges, reported in order. -/
abbrev StepMap := List MapRange

/-- The value of the local variable end after the forEach call in
selectionToInsertionEnd, which overwrites end with newTo on every
reported range: the newTo of the last reported range, none when the map
reports no range (end stays undefined). -/
def lastForEachEnd (m : StepMap) : Option Nat :=
  (m.map MapRange.newEnd).getLast?

/-- The fragment of the document node model that replaceSelection
inspects: the isInline flag, the isTextblock flag, and the children. -/
inductive Node where
  | mk (isInline : Bool) (isTextblock : Bool) (children : List Node)

/-- Projection for the isInline flag of a node. -/
def Node.isInline : Node → Bool
  | .mk i _ _ => i

/-- Projection for the isTextblock flag of a node. -/
def Node.isTextblock : Node → Bool
  | .mk _ t _ => t

/-- Projection for the child list of a node. -/
def Node.children : Node → List Node
  | .mk _ _ c => c

/-- The lastChild accessor: the last child, null (none) when there are no
children. -/
def Node.lastChild (n : Node) : Option Node :=
  n.children.getLast?

/-- A content slice as replaceSelection inspects it: the top-level
children of its fragment and the open depths on both edges. -/
structure Slice where
  content : List Node
  openLeft : Nat
  openRight : Nat

/-- A metadata key as passed to setMeta / getMeta, classified by how the
JS expression typeof key == "string" ? key : key.key behaves on it:
a string, a non-string with a string key property, a non-string without
one (key.key evaluates to undefined), or null / undefined themselves
(the property access throws a TypeError). -/
inductive MetaKey where
  | str (s : String)
  | objWithKey (k : String)
  | objNoKey
  | nullish
  deriving DecidableEq

/-- The oracle functions supplied by the external collaborators:
selection mapping (Selection.prototype.map through a document and a
mapping slice), Selection.near over a resolved position and a bias,
selection.head / selection.$head.marks() / Mark.none for currentMarks,
selection.from / selection.to, and the step sequence that the inherited
replaceRange(from, to, slice) pushes through addStep. -/
structure Model (σ δ μ π : Type) where
  mapSel : σ → δ → List StepMap → σ
  near : δ → Nat → Int → σ
  head : σ → Option Nat
  headMarks : σ → μ
  emptyMarks : μ
  selFrom : σ → Nat
  selTo : σ → Nat
  replaceRangeSteps : δ → Nat → Nat → Slice → List (π × StepMap × δ)

/-- The slice of an editor state that the Transaction constructor
reads: state.doc, state.selection and state.storedMarks. -/
structure EditorStateSnap (σ δ μ : Type) where
  doc : δ
  selection : σ
  storedMarks : Option μ

/-- The state of a Transaction object: the fields of the Transform
superclass that the transaction code touches (doc, steps, mapping.maps)
plus the transaction's own fields. -/
structure Transaction (σ δ μ π α : Type) where
  doc : δ
  steps : List π
  maps : List StepMap
  time : Nat
  curSelection : σ
  curSelectionFor : Nat
  storedMarks : Option μ
  updated : Nat
  meta : List (String × α)
  deriving DecidableEq

/-- Bit flag UPDATED_SEL = 1. -/
def UPDATED_SEL : Nat := 1

/-- Bit flag UPDATED_MARKS = 2. -/
def UPDATED_MARKS : Nat := 2

/-- Bit flag UPDATED_SCROLL = 4. -/
def UPDATED_SCROLL : Nat := 4

/-- The value of the JS 32-bit bitwise complement of UPDATED_MARKS as it
enters the bitwise-and x & ~UPDATED_MARKS on non-negative operands. -/
def NOT_UPDATED_MARKS : Nat := 4294967293

variable {σ δ μ π α : Type}

/-- The Transaction constructor: super(state.doc) initialises an empty
step log over the state's document; time is the clock value; the cached
selection is the state's selection, valid for 0 steps; storedMarks come
from the state; updated = 0; meta is empty. -/
def mkTransaction (now : Nat) (st : EditorStateSnap σ δ μ) : Transaction σ δ μ π α :=
  { doc := st.doc, steps := [], maps := [], time := now,
    curSelection := st.selection, curSelectionFor := 0,
    storedMarks := st.storedMarks, updated := 0, meta := [] }

/-- The selection getter: when curSelectionFor is behind steps.length,
re-map the cached selection through the current doc with the mapping
suffix starting at curSelectionFor, cache the result and advance
curSelectionFor to steps.length; otherwise return the cache.  Returns
the transaction state after the read together with the value read. -/
def selectionGet (mo : Model σ δ μ π) (tr : Transaction σ δ μ π α) :
    Transaction σ δ μ π α × σ :=
  if tr.curSelectionFor < tr.steps.length then
    let s := mo.mapSel tr.curSelection tr.doc (tr.maps.drop tr.curSelectionFor)
    ({ tr with curSelection := s, curSelectionFor := tr.steps.length }, s)
  else
    (tr, tr.curSelection)

/-- Whether a selection read on this state would take the re-mapping
branch of the getter (the guard that curSelectionFor is behind
steps.length). -/
def selectionGetDoesMap (tr : Transaction σ δ μ π α) : Bool :=
  decide (tr.curSelectionFor < tr.steps.length)

/-- The method setSelection: overwrite the cached selection, mark it valid for the
whole step log, set UPDATED_SEL, clear UPDATED_MARKS, null storedMarks.
The JS method returns this; in the state-passing embedding that is the
updated record. -/
def setSelection (tr : Transaction σ δ μ π α) (s : σ) : Transaction σ δ μ π α :=
  { tr with
    curSelection := s,
    curSelectionFor := tr.steps.length,
    updated := (tr.updated ||| UPDATED_SEL) &&& NOT_UPDATED_MARKS,
    storedMarks := none }

/-- The selectionSet getter: (updated & UPDATED_SEL) > 0. -/
def selectionSet (tr : Transaction σ δ μ π α) : Bool :=
  decide (0 < tr.updated &&& UPDATED_SEL)

/-- The method setStoredMarks: overwrite storedMarks and set UPDATED_MARKS. -/
def setStoredMarks (tr : Transaction σ δ μ π α) (marks : Option μ) :
    Transaction σ δ μ π α :=
  { tr with storedMarks := marks, updated := tr.updated ||| UPDATED_MARKS }

/-- The storedMarksSet getter: (updated & UPDATED_MARKS) > 0. -/
def storedMarksSet (tr : Transaction σ δ μ π α) : Bool :=
  decide (0 < tr.updated &&& UPDATED_MARKS)

/-- The override addStep: the Transform superclass appends the step, its position map
and the resulting document; the Transaction override then clears
UPDATED_MARKS and nulls storedMarks. -/
def addStep (tr : Transaction σ δ μ π α) (p : π) (m : StepMap) (d : δ) :
    Transaction σ δ μ π α :=
  { tr with
    steps := tr.steps ++ [p],
    maps := tr.maps ++ [m],
    doc := d,
    updated := tr.updated &&& NOT_UPDATED_MARKS,
    storedMarks := none }

/-- An inherited transform operation, seen from this module: some
sequence of addStep calls (each with its step, position map and
resulting document). -/
def applySteps (tr : Transaction σ δ μ π α) :
    List (π × StepMap × δ) → Transaction σ δ μ π α
  | [] => tr
  | (p, m, d) :: rest => applySteps (addStep tr p m d) rest

/-- The method setTime: overwrite the timestamp. -/
def setTime (tr : Transaction σ δ μ π α) (t : Nat) : Transaction σ δ μ π α :=
  { tr with time := t }

/-- The method scrollIntoView: set UPDATED_SCROLL. -/
def scrollIntoView (tr : Transaction σ δ μ π α) : Transaction σ δ μ π α :=
  { tr with updated := tr.updated ||| UPDATED_SCROLL }

/-- The scrolledIntoView getter: (updated & UPDATED_SCROLL) > 0. -/
def scrolledIntoView (tr : Transaction σ δ μ π α) : Bool :=
  decide (0 < tr.updated &&& UPDATED_SCROLL)

/-- The method setMeta: store under the string key itself, or under the key
resolved from the key property of a non-string key; key.key on a
non-string without that property is undefined and the JS property
assignment coerces it to the string "undefined"; on null / undefined the
property access throws a TypeError before anything is stored. -/
def setMeta (tr : Transaction σ δ μ π α) (key : MetaKey) (v : α) :
    Except String (Transaction σ δ μ π α) :=
  match key with
  | .str s => .ok { tr with meta := (s, v) :: tr.meta }
  | .objWithKey k => .ok { tr with meta := (k, v) :: tr.meta }
  | .objNoKey => .ok { tr with meta := ("undefined", v) :: tr.meta }
  | .nullish => .error ("TypeError")

/-- The method getMeta: read back under the same key resolution as setMeta. -/
def getMeta (tr : Transaction σ δ μ π α) (key : MetaKey) :
    Except String (Option α) :=
  match key with
  | .str s => .ok ((tr.meta.find? (fun p => p.1 == s)).map Prod.snd)
  | .objWithKey k => .ok ((tr.meta.find? (fun p => p.1 == k)).map Prod.snd)
  | .objNoKey => .ok ((tr.meta.find? (fun p => p.1 == "undefined")).map Prod.snd)
  | .nullish => .error ("TypeError")

/-- The isGeneric getter: true iff the metadata store has no key. -/
def isGeneric (tr : Transaction σ δ μ π α) : Bool :=
  tr.meta.isEmpty

/-- The helper currentMarks: Mark.none when selection.head is null, else
selection.$head.marks(). -/
def currentMarks (mo : Model σ δ μ π) (s : σ) : μ :=
  match mo.head s with
  | none => mo.emptyMarks
  | some _ => mo.headMarks s

/-- The method addStoredMark: storedMarks = mark.addToSet(storedMarks ||
currentMarks(this.selection)).  The || short-circuits: the selection
getter (and its lazy re-mapping) only runs when storedMarks is null.
The mark's addToSet method is passed as a function on mark sets. -/
def addStoredMark (mo : Model σ δ μ π) (tr : Transaction σ δ μ π α)
    (addToSet : μ → μ) : Transaction σ δ μ π α :=
  match tr.storedMarks with
  | some ms => { tr with storedMarks := some (addToSet ms) }
  | none =>
    let r := selectionGet mo tr
    { r.1 with storedMarks := some (addToSet (currentMarks mo r.2)) }

/-- The method removeStoredMark: storedMarks =
mark.removeFromSet(storedMarks || currentMarks(this.selection)), with
the same short-circuit as addStoredMark. -/
def removeStoredMark (mo : Model σ δ μ π) (tr : Transaction σ δ μ π α)
    (removeFromSet : μ → μ) : Transaction σ δ μ π α :=
  match tr.storedMarks with
  | some ms => { tr with storedMarks := some (removeFromSet ms) }
  | none =>
    let r := selectionGet mo tr
    { r.1 with storedMarks := some (removeFromSet (currentMarks mo r.2)) }

/-- The helper selectionToInsertionEnd: return unchanged when
no step was appended since startLen; otherwise read the position map of
the most recent step, take the last newTo its forEach reports, and when
one exists set the selection to Selection.near(tr.doc.resolve(end),
bias).  none models the TypeError of calling forEach on undefined when
the maps array is empty although startLen differs from steps.length. -/
def selectionToInsertionEnd (mo : Model σ δ μ π) (tr : Transaction σ δ μ π α)
    (startLen : Nat) (bias : Int) : Option (Transaction σ δ μ π α) :=
  if tr.steps.length = startLen then some tr
  else
    match tr.maps.getLast? with
    | none => none
    | some map =>
      match lastForEachEnd map with
      | none => some tr
      | some e => some (setSelection tr (mo.near tr.doc e bias))

/-- The openRight descent loop of replaceSelection:
lastParent = lastNode; lastNode = lastNode.lastChild, run openRight
times.  Returns the final (lastParent, lastNode); none models the
TypeError of reading lastChild on a null lastNode. -/
def descendOpenRight : Option Node → Option Node → Nat →
    Option (Option Node × Option Node)
  | lastParent, lastNode, 0 => some (lastParent, lastNode)
  | _, none, _ + 1 => none
  | _, some n, i + 1 => descendOpenRight (some n) n.lastChild i

/-- The bias replaceSelection computes for selectionToInsertionEnd:
(lastNode ? lastNode.isInline : lastParent && lastParent.isTextblock)
? -1 : 1, where lastNode starts at slice.content.lastChild and the pair
comes out of the openRight descent loop.  none models the loop's
TypeError. -/
def replaceSelectionBias (s : Slice) : Option Int :=
  match descendOpenRight none s.content.getLast? s.openRight with
  | none => none
  | some (lastParent, lastNode) =>
    some (if (match lastNode with
              | some n => n.isInline
              | none =>
                match lastParent with
                | some q => q.isTextblock
                | none => false) then (-1 : Int) else 1)

/-- The method replaceSelection: read the selection (running the lazy
getter), record startLen, run the inherited replaceRange(from, to,
slice) as its sequence of addStep calls, compute the bias from the
slice, and finish with selectionToInsertionEnd. -/
def replaceSelection (mo : Model σ δ μ π) (tr : Transaction σ δ μ π α)
    (s : Slice) : Option (Transaction σ δ μ π α) :=
  let r := selectionGet mo tr
  let startLen := r.1.steps.length
  let tr1 := applySteps r.1
    (mo.replaceRangeSteps r.1.doc (mo.selFrom r.2) (mo.selTo r.2) s)
  match replaceSelectionBias s with
  | none => none
  | some b => selectionToInsertionEnd mo tr1 startLen b

/-- Modelled from the spec: the rightmost entity found by descending
slice.openRight levels of lastChild from the slice's last top-level
child, with no parent tracking — the entity the claim about
replaceSelection's bias speaks of. -/
def descendEntity : Option Node → Nat → Option Node
  | n, 0 => n
  | some n, i + 1 => descendEntity n.lastChild i
  | none, _ + 1 => none

/-- Modelled from the spec: the claimed backward-bias condition for
replaceSelection — the descended rightmost entity is inline content,
or, absent any open-right descent, the last top-level inserted block is
itself a text-container. -/
def specBiasBackward (s : Slice) : Bool :=
  (match descendEntity s.content.getLast? s.openRight with
   | some n => n.isInline
   | none => false) ||
  (s.openRight == 0 &&
   (match s.content.getLast? with
    | some n => n.isTextblock
    | none => false))

/-- The invariant on the lazily-synchronised selection cache: the step
index it is valid for never exceeds the length of the step log. -/
def Inv (tr : Transaction σ δ μ π α) : Prop :=
  tr.curSelectionFor ≤ tr.steps.length

/-- A concrete instantiation of the oracle record, used to evaluate the
theorems on explicit inputs: selections and documents are numbers, mark
sets are lists of numbers, steps are units. -/
def M0 : Model Nat Nat (List Nat) Unit :=
  { mapSel := fun s _ ms => s + ms.length,
    near := fun _ e _ => e,
    head := fun s => if s % 2 = 0 then some s else none,
    headMarks := fun s => [s],
    emptyMarks := [],
    selFrom := fun s => s,
    selTo := fun s => s + 1,
    replaceRangeSteps := fun _ _ _ _ => [((), [⟨0, 1, 0, 2⟩], 1)] }

/-- A concrete fresh transaction: document 0, selection 4, no stored
marks. -/
def T0 : Transaction Nat Nat (List Nat) Unit Nat :=
  mkTransaction 0 ⟨0, 4, none⟩

/-- T0 after one appended step whose map reports one range ending at 3:
its selection cache is stale. -/
def T1 : Transaction Nat Nat (List Nat) Unit Nat :=
  addStep T0 () [⟨0, 1, 0, 3⟩] 1

/-- T0 after one appended step whose map reports no range at all. -/
def T2 : Transaction Nat Nat (List Nat) Unit Nat :=
  addStep T0 () [] 1

/-- T0 after one appended step whose map reports two ranges with new
end positions 3 and 7. -/
def T3 : Transaction Nat Nat (List Nat) Unit Nat :=
  addStep T0 () [⟨0, 1, 0, 3⟩, ⟨2, 4, 5, 7⟩] 1

/-- A slice holding one closed top-level block node that is a
textblock but not inline (a paragraph), with no open-right depth. -/
def sliceP : Slice :=
  { content := [Node.mk false true []], openLeft := 0, openRight := 0 }

/-- A slice holding one inline node, with no open-right depth. -/
def sliceW : Slice :=
  { content := [Node.mk true false []], openLeft := 0, openRight := 0 }

/-- Masking with the complement of UPDATED_MARKS clears bit 1. -/
theorem land_notMarks_marks (u : Nat) : (u &&& 4294967293) &&& 2 = 0 := by
  rw [Nat.land_assoc, show (4294967293 &&& 2 : Nat) = 0 from by decide, Nat.and_zero]

/-- Setting UPDATED_SEL and then masking with the complement of
UPDATED_MARKS leaves bit 0 set. -/
theorem lor_sel_notMarks_sel (u : Nat) : ((u ||| 1) &&& 4294967293) &&& 1 = 1 := by
  rw [Nat.land_assoc, show (4294967293 &&& 1 : Nat) = 1 from by decide,
    Nat.and_one_is_mod]
  simp [Nat.testBit_zero]

/-- Claim C1: the selection getter is lazily self-correcting.  When
curSelectionFor is behind steps.length, it returns the cached selection
mapped through the current document with the mapping suffix starting at
curSelectionFor, stores that value as the new cached selection and sets
curSelectionFor to steps.length; when curSelectionFor equals
steps.length it returns the cached selection with the state unchanged. -/
theorem selection_getter_lazy (mo : Model σ δ μ π) (tr : Transaction σ δ μ π α) :
    (tr.curSelectionFor < tr.steps.length →
      selectionGet mo tr =
        ({ tr with
           curSelection := mo.mapSel tr.curSelection tr.doc
             (tr.maps.drop tr.curSelectionFor),
           curSelectionFor := tr.steps.length },
         mo.mapSel tr.curSelection tr.doc (tr.maps.drop tr.curSelectionFor))) ∧
    (tr.curSelectionFor = tr.steps.length →
      selectionGet mo tr = (tr, tr.curSelection)) := by
  constructor
  · intro h
    simp [selectionGet, h]
  · intro h
    simp [selectionGet, h]

/-- Witness for claim C1, on the stale transaction T1: the getter maps
the cached selection 4 through the one-step suffix and caches 5. -/
theorem selection_getter_lazy_witness :
    selectionGet M0 T1 = ({ T1 with curSelection := 5, curSelectionFor := 1 }, 5) :=
  (selection_getter_lazy M0 T1).1 (by decide)

/-- Claim C4 core: addStep clears UPDATED_MARKS and nulls storedMarks. -/
theorem addStep_marks_cleared (tr : Transaction σ δ μ π α) (p : π) (m : StepMap)
    (d : δ) :
    storedMarksSet (addStep tr p m d) = false ∧
    (addStep tr p m d).storedMarks = none := by
  constructor
  · simp [storedMarksSet, addStep, UPDATED_MARKS, NOT_UPDATED_MARKS,
      land_notMarks_marks]
  · rfl

/-- Any nonempty sequence of addStep calls ends with cleared marks. -/
theorem applySteps_marks_cleared (l : List (π × StepMap × δ)) :
    ∀ tr : Transaction σ δ μ π α, l ≠ [] →
      storedMarksSet (applySteps tr l) = false ∧
      (applySteps tr l).storedMarks = none := by
  induction l with
  | nil => intro tr h; exact absurd rfl h
  | cons x xs ih =>
    intro tr _
    obtain ⟨p, m, d⟩ := x
    cases hxs : xs with
    | nil =>
      subst hxs
      simpa [applySteps] using addStep_marks_cleared tr p m d
    | cons y ys =>
      have hne : xs ≠ [] := by simp [hxs]
      subst hxs
      simpa [applySteps] using ih (addStep tr p m d) hne

/-- Claim C4: immediately after any structural step is appended through
addStep — hence after any inherited transform operation, which is a
nonempty sequence of addStep calls — storedMarksSet is false and
storedMarks is null, regardless of the prior flag and marks state. -/
theorem addStep_clears_storedMarks (tr : Transaction σ δ μ π α) (p : π)
    (m : StepMap) (d : δ) :
    storedMarksSet (addStep tr p m d) = false ∧
    (addStep tr p m d).storedMarks = none ∧
    (∀ l : List (π × StepMap × δ), l ≠ [] →
      storedMarksSet (applySteps tr l) = false ∧
      (applySteps tr l).storedMarks = none) := by
  refine ⟨(addStep_marks_cleared tr p m d).1, (addStep_marks_cleared tr p m d).2, ?_⟩
  intro l hl
  exact applySteps_marks_cleared l tr hl

/-- Witness for claim C4: appending one concrete step to T0 leaves the
explicit-marks flag cleared and the stored marks null. -/
theorem addStep_clears_storedMarks_witness :
    storedMarksSet (applySteps T0 [((), [], 1)]) = false ∧
    (applySteps T0 [((), [], 1)]).storedMarks = none :=
  (addStep_clears_storedMarks T0 () [] 1).2.2 [((), [], 1)] (by decide)

/-- Claim C5: after setSelection s, the selection-explicit flag is set,
reading the selection returns exactly s without taking the re-mapping
branch, the marks-explicit flag is cleared and storedMarks is null.  The
state-passing value of setSelection is the updated transaction itself,
matching the fluent return this of the JS method. -/
theorem setSelection_effects (mo : Model σ δ μ π) (tr : Transaction σ δ μ π α)
    (s : σ) :
    selectionSet (setSelection tr s) = true ∧
    selectionGet mo (setSelection tr s) = (setSelection tr s, s) ∧
    selectionGetDoesMap (setSelection tr s) = false ∧
    storedMarksSet (setSelection tr s) = false ∧
    (setSelection tr s).storedMarks = none := by
  refine ⟨?_, ?_, ?_, ?_, rfl⟩
  · have h := lor_sel_notMarks_sel tr.updated
    rw [Nat.and_one_is_mod] at h
    simp [selectionSet, setSelection, UPDATED_SEL, NOT_UPDATED_MARKS, h]
  · simp [selectionGet, setSelection]
  · simp [selectionGetDoesMap, setSelection]
  · simp [storedMarksSet, setSelection, UPDATED_SEL, UPDATED_MARKS,
      NOT_UPDATED_MARKS, land_notMarks_marks]

/-- Reading the selection preserves the cache invariant. -/
theorem inv_selectionGet (mo : Model σ δ μ π) (tr : Transaction σ δ μ π α)
    (h : Inv tr) : Inv (selectionGet mo tr).1 := by
  by_cases hc : tr.curSelectionFor < tr.steps.length
  · simp [Inv, selectionGet, hc]
  · simpa [Inv, selectionGet, hc] using h

/-- setSelection establishes the cache invariant outright. -/
theorem inv_setSelection (tr : Transaction σ δ μ π α) (s : σ) :
    Inv (setSelection tr s) :=
  Nat.le_refl _

/-- addStep preserves the cache invariant (the log only grows). -/
theorem inv_addStep (tr : Transaction σ δ μ π α) (p : π) (m : StepMap) (d : δ)
    (h : Inv tr) : Inv (addStep tr p m d) := by
  simp only [Inv, addStep, List.length_append, List.length_cons, List.length_nil]
  exact Nat.le_trans h (Nat.le_add_right _ _)

/-- A sequence of addStep calls preserves the cache invariant. -/
theorem inv_applySteps (l : List (π × StepMap × δ)) :
    ∀ tr : Transaction σ δ μ π α, Inv tr → Inv (applySteps tr l) := by
  induction l with
  | nil => intro tr h; exact h
  | cons x xs ih =>
    intro tr h
    obtain ⟨p, m, d⟩ := x
    exact ih (addStep tr p m d) (inv_addStep tr p m d h)

/-- selectionToInsertionEnd preserves the cache invariant. -/
theorem inv_selectionToInsertionEnd (mo : Model σ δ μ π)
    (tr : Transaction σ δ μ π α) (startLen : Nat) (bias : Int) (h : Inv tr) :
    ∀ tr2, selectionToInsertionEnd mo tr startLen bias = some tr2 → Inv tr2 := by
  intro tr2 h2
  unfold selectionToInsertionEnd at h2
  split at h2
  · exact (Option.some.inj h2) ▸ h
  · split at h2
    · exact absurd h2 (by simp)
    · split at h2
      · exact (Option.some.inj h2) ▸ h
      · exact (Option.some.inj h2) ▸ inv_setSelection tr _

/-- Claim C6: the invariant that curSelectionFor never exceeds
steps.length (and, in Nat, is at least 0) holds at construction and is
preserved by every operation of the transaction: the selection getter,
setSelection, addStep and arbitrary inherited transform operations built
from it, the mark and time and scroll and metadata setters, the
stored-mark adjusters, selectionToInsertionEnd and replaceSelection. -/
theorem curSelectionFor_invariant (mo : Model σ δ μ π) (tr : Transaction σ δ μ π α)
    (s : σ) (p : π) (m : StepMap) (d : δ) (marks : Option μ) (t : Nat)
    (f g : μ → μ) (l : List (π × StepMap × δ)) (now : Nat)
    (st : EditorStateSnap σ δ μ) (key : MetaKey) (v : α) (sl : Slice)
    (startLen : Nat) (bias : Int) (h : Inv tr) :
    Inv (mkTransaction now st : Transaction σ δ μ π α) ∧
    Inv (selectionGet mo tr).1 ∧
    Inv (setSelection tr s) ∧
    Inv (addStep tr p m d) ∧
    Inv (applySteps tr l) ∧
    Inv (setStoredMarks tr marks) ∧
    Inv (setTime tr t) ∧
    Inv (scrollIntoView tr) ∧
    Inv (addStoredMark mo tr f) ∧
    Inv (removeStoredMark mo tr g) ∧
    (∀ tr2, setMeta tr key v = Except.ok tr2 → Inv tr2) ∧
    (∀ tr2, selectionToInsertionEnd mo tr startLen bias = some tr2 → Inv tr2) ∧
    (∀ tr2, replaceSelection mo tr sl = some tr2 → Inv tr2) := by
  refine ⟨Nat.le_refl _, inv_selectionGet mo tr h, inv_setSelection tr s,
    inv_addStep tr p m d h, inv_applySteps l tr h, h, h, h, ?_, ?_, ?_,
    inv_selectionToInsertionEnd mo tr startLen bias h, ?_⟩
  · cases hsm : tr.storedMarks with
    | some ms => simpa [Inv, addStoredMark, hsm] using h
    | none =>
      have := inv_selectionGet mo tr h
      simpa [Inv, addStoredMark, hsm] using this
  · cases hsm : tr.storedMarks with
    | some ms => simpa [Inv, removeStoredMark, hsm] using h
    | none =>
      have := inv_selectionGet mo tr h
      simpa [Inv, removeStoredMark, hsm] using this
  · intro tr2 h2
    cases key with
    | str s2 => simp [setMeta] at h2; exact h2 ▸ h
    | objWithKey k => simp [setMeta] at h2; exact h2 ▸ h
    | objNoKey => simp [setMeta] at h2; exact h2 ▸ h
    | nullish => simp [setMeta] at h2
  · intro tr2 h2
    unfold replaceSelection at h2
    simp only at h2
    split at h2
    · exact absurd h2 (by simp)
    · exact inv_selectionToInsertionEnd mo _ _ _
        (inv_applySteps _ _ (inv_selectionGet mo tr h)) tr2 h2

/-- Witness for claim C6: on the concrete stale transaction T1 the
invariant is preserved through an explicit setSelection. -/
theorem curSelectionFor_invariant_witness :
    Inv (setSelection T1 9) :=
  (curSelectionFor_invariant M0 T1 9 () [] 1 none 0 id id [] 0 ⟨0, 4, none⟩
    MetaKey.objNoKey 7 sliceP 0 1 (by exact Nat.zero_le _)).2.2.1

/-- Claim C7: a freshly constructed transaction reads back exactly the
base selection captured at construction; any transaction with an empty
step log reads back its cache unchanged (mapping through zero edits is
identity); and a second consecutive read returns the identical value
with identical state and does not take the re-mapping branch. -/
theorem selection_read_idempotent (mo : Model σ δ μ π) (tr : Transaction σ δ μ π α)
    (now : Nat) (st : EditorStateSnap σ δ μ) :
    selectionGet mo (mkTransaction now st : Transaction σ δ μ π α) =
      (mkTransaction now st, st.selection) ∧
    (tr.steps = [] → selectionGet mo tr = (tr, tr.curSelection)) ∧
    selectionGet mo (selectionGet mo tr).1 =
      ((selectionGet mo tr).1, (selectionGet mo tr).2) ∧
    selectionGetDoesMap (selectionGet mo tr).1 = false := by
  refine ⟨?_, ?_, ?_, ?_⟩
  · simp [selectionGet, mkTransaction]
  · intro h
    simp [selectionGet, h]
  · by_cases hc : tr.curSelectionFor < tr.steps.length <;>
      simp [selectionGet, hc]
  · by_cases hc : tr.curSelectionFor < tr.steps.length <;>
      simp [selectionGetDoesMap, selectionGet, hc]

/-- Witness for claim C7: the fresh transaction T0 (no steps) reads back
its base selection 4 unchanged. -/
theorem selection_read_idempotent_witness :
    selectionGet M0 T0 = (T0, 4) :=
  (selection_read_idempotent M0 T0 0 ⟨0, 4, none⟩).2.1 (by decide)

/-- A value the getLast? of a list returns is a member of the list. -/
theorem mem_of_getLast?_eq {β : Type} (l : List β) :
    ∀ e, l.getLast? = some e → e ∈ l := by
  induction l with
  | nil => intro e he; simp at he
  | cons a t ih =>
    intro e he
    cases t with
    | nil =>
      simp at he
      simp [he]
    | cons b t2 =>
      rw [List.getLast?_cons_cons] at he
      exact List.mem_cons_of_mem a (ih e he)

/-- In a list sorted nondecreasingly, the last element bounds every
element from above. -/
theorem pairwise_le_getLast (l : List Nat) :
    List.Pairwise (· ≤ ·) l → ∀ e, l.getLast? = some e → ∀ x ∈ l, x ≤ e := by
  induction l with
  | nil => intro _ e he; simp at he
  | cons a t ih =>
    intro hp e he x hx
    have hpc := List.pairwise_cons.mp hp
    cases t with
    | nil =>
      simp at he hx
      omega
    | cons b t2 =>
      rw [List.getLast?_cons_cons] at he
      rcases List.mem_cons.mp hx with rfl | hx2
      · exact hpc.1 e (mem_of_getLast?_eq (b :: t2) e he)
      · exact ih hpc.2 e he x hx2

/-- Claim C3: when no step was appended since startLen the placement
does nothing; otherwise it reads only the position map of the most
recent step and, when that map reports at least one range with its new
end positions in nondecreasing order (the ordering the external step
maps guarantee), the end position it uses is the rightmost new end
reached by any range, and the selection is set to the nearest valid
selection at that position with the given bias. -/
theorem selectionToInsertionEnd_spec (mo : Model σ δ μ π)
    (tr : Transaction σ δ μ π α) (startLen : Nat) (bias : Int) :
    (tr.steps.length = startLen →
      selectionToInsertionEnd mo tr startLen bias = some tr) ∧
    (tr.steps.length ≠ startLen →
      ∀ map : StepMap, tr.maps.getLast? = some map →
        List.Pairwise (· ≤ ·) (map.map MapRange.newEnd) →
        ∀ e, lastForEachEnd map = some e →
          (∀ r ∈ map, r.newEnd ≤ e) ∧
          selectionToInsertionEnd mo tr startLen bias =
            some (setSelection tr (mo.near tr.doc e bias))) := by
  constructor
  · intro h
    simp [selectionToInsertionEnd, h]
  · intro h map hm hp e he
    constructor
    · intro r hr
      exact pairwise_le_getLast _ hp e he r.newEnd
        (List.mem_map_of_mem MapRange.newEnd hr)
    · simp [selectionToInsertionEnd, h, hm, he]

/-- Witness for claim C3: on T3, whose single step's map reports ranges
with new ends 3 and 7, the placement sets the selection near position
7, the rightmost new end. -/
theorem selectionToInsertionEnd_spec_witness :
    selectionToInsertionEnd M0 T3 0 1 = some (setSelection T3 7) :=
  ((selectionToInsertionEnd_spec M0 T3 0 1).2 (by decide)
    [⟨0, 1, 0, 3⟩, ⟨2, 4, 5, 7⟩] rfl (by decide) 7 rfl).2

/-- Claim C10: when at least one step was appended since startLen but
the most recent step's map reports no range at all, the placement
returns the transaction completely unchanged — selection,
curSelectionFor and all update flags included — so setSelection is
invoked only when the last map reports at least one range. -/
theorem selectionToInsertionEnd_empty_map_noop (mo : Model σ δ μ π)
    (tr : Transaction σ δ μ π α) (startLen : Nat) (bias : Int)
    (h1 : startLen < tr.steps.length) (h2 : tr.maps.getLast? = some []) :
    selectionToInsertionEnd mo tr startLen bias = some tr := by
  have hne : tr.steps.length ≠ startLen := by omega
  simp [selectionToInsertionEnd, hne, h2, lastForEachEnd]

/-- Witness for claim C10: T2 appended one step whose map reports no
range, and the placement leaves T2 untouched. -/
theorem selectionToInsertionEnd_empty_map_noop_witness :
    selectionToInsertionEnd M0 T2 0 1 = some T2 :=
  selectionToInsertionEnd_empty_map_noop M0 T2 0 1 (by decide) rfl

/-- The selection getter never changes the updated bitfield. -/
theorem selectionGet_updated (mo : Model σ δ μ π) (tr : Transaction σ δ μ π α) :
    (selectionGet mo tr).1.updated = tr.updated := by
  by_cases hc : tr.curSelectionFor < tr.steps.length <;> simp [selectionGet, hc]

/-- Claim C8: addStoredMark and removeStoredMark leave the updated
bitfield — in particular storedMarksSet — unchanged, and when
storedMarks is null at the time of the call, the set they hand to the
mark's add / remove operation is seeded from currentMarks of the
current selection, which is the head marks when the selection has a
head and the empty mark set when it has none. -/
theorem storedMark_adjust_frame (mo : Model σ δ μ π) (tr : Transaction σ δ μ π α)
    (f g : μ → μ) :
    (addStoredMark mo tr f).updated = tr.updated ∧
    (removeStoredMark mo tr g).updated = tr.updated ∧
    storedMarksSet (addStoredMark mo tr f) = storedMarksSet tr ∧
    storedMarksSet (removeStoredMark mo tr g) = storedMarksSet tr ∧
    (tr.storedMarks = none →
      (addStoredMark mo tr f).storedMarks =
        some (f (currentMarks mo (selectionGet mo tr).2)) ∧
      (removeStoredMark mo tr g).storedMarks =
        some (g (currentMarks mo (selectionGet mo tr).2))) ∧
    (∀ x : σ, mo.head x = none → currentMarks mo x = mo.emptyMarks) ∧
    (∀ x : σ, ∀ hd : Nat, mo.head x = some hd →
      currentMarks mo x = mo.headMarks x) := by
  have ha : (addStoredMark mo tr f).updated = tr.updated := by
    cases hsm : tr.storedMarks <;>
      simp [addStoredMark, hsm, selectionGet_updated]
  have hb : (removeStoredMark mo tr g).updated = tr.updated := by
    cases hsm : tr.storedMarks <;>
      simp [removeStoredMark, hsm, selectionGet_updated]
  refine ⟨ha, hb, by simp [storedMarksSet, ha], by simp [storedMarksSet, hb],
    ?_, ?_, ?_⟩
  · intro h0
    constructor <;> simp [addStoredMark, removeStoredMark, h0]
  · intro x hx
    simp [currentMarks, hx]
  · intro x hd hx
    simp [currentMarks, hx]

/-- Witness for claim C8: on T0, whose stored marks are null and whose
selection 4 has a head, adding a mark seeds from the head marks. -/
theorem storedMark_adjust_frame_witness :
    (addStoredMark M0 T0 (fun ms => 9 :: ms)).storedMarks = some [9, 4] :=
  ((storedMark_adjust_frame M0 T0 (fun ms => 9 :: ms) (fun ms => ms)).2.2.2.2.1
    rfl).1

/-- Counterexample for claim C2: on a slice whose single top-level
child is a closed (openRight = 0) non-inline textblock, the claimed
backward condition holds — no open-right descent and the last
top-level inserted block is a text-container — and yet the code
computes the forward bias 1, not -1. -/
theorem replaceSelection_bias_claim_counterexample :
    specBiasBackward sliceP = true ∧ replaceSelectionBias sliceP = some 1 :=
  ⟨rfl, rfl⟩

/-- Claim C2 as amended: the bias is -1 exactly when the openRight
descent ends on an existing node that is inline, or ends on null with
the tracked parent (the node of the previous descent level, which is
top-level only when openRight = 1) a textblock; in every other case —
including a closed non-inline textblock as last top-level child — the
bias is 1. -/
theorem replaceSelection_bias_characterization (s : Slice) (lp ln : Option Node)
    (h : descendOpenRight none s.content.getLast? s.openRight = some (lp, ln)) :
    (replaceSelectionBias s = some (-1) ∨ replaceSelectionBias s = some 1) ∧
    (replaceSelectionBias s = some (-1) ↔
      ((∃ n, ln = some n ∧ n.isInline = true) ∨
       (ln = none ∧ ∃ q, lp = some q ∧ q.isTextblock = true))) := by
  rcases ln with _ | n
  · rcases lp with _ | q
    · have hb : replaceSelectionBias s = some 1 := by
        unfold replaceSelectionBias
        rw [h]
        simp
      simp [hb]
    · cases hq : q.isTextblock
      · have hb : replaceSelectionBias s = some 1 := by
          unfold replaceSelectionBias
          rw [h]
          simp [hq]
        simp [hb, hq]
      · have hb : replaceSelectionBias s = some (-1) := by
          unfold replaceSelectionBias
          rw [h]
          simp [hq]
        simp [hb, hq]
  · cases hn : n.isInline
    · have hb : replaceSelectionBias s = some 1 := by
        unfold replaceSelectionBias
        rw [h]
        simp [hn]
      simp [hb, hn]
    · have hb : replaceSelectionBias s = some (-1) := by
        unfold replaceSelectionBias
        rw [h]
        simp [hn]
      simp [hb, hn]

/-- Witness for the amended claim C2: a slice whose single closed
top-level child is inline gets the backward bias -1. -/
theorem replaceSelection_bias_characterization_witness :
    replaceSelectionBias sliceW = some (-1) :=
  ((replaceSelection_bias_characterization sliceW none
    (some (Node.mk true false [])) rfl).2).mpr
    (Or.inl ⟨Node.mk true false [], rfl, rfl⟩)

/-- Claim C9 as amended: setMeta fails fast only when the key is null
or undefined (the key.key access throws before anything is stored); a
non-string key without a string key property does not fail — its
undefined key.key is coerced to the string "undefined" and the value is
silently stored, and read back, under that wrong key; string keys and
keys with a key property store under the expected string. -/
theorem setMeta_key_resolution (tr : Transaction σ δ μ π α) (v : α) :
    setMeta tr MetaKey.nullish v = Except.error ("TypeError") ∧
    setMeta tr MetaKey.objNoKey v =
      Except.ok { tr with meta := ("undefined", v) :: tr.meta } ∧
    getMeta { tr with meta := ("undefined", v) :: tr.meta } MetaKey.objNoKey =
      Except.ok (some v) ∧
    (∀ s2 : String, setMeta tr (MetaKey.str s2) v =
      Except.ok { tr with meta := (s2, v) :: tr.meta }) ∧
    (∀ k : String, setMeta tr (MetaKey.objWithKey k) v =
      Except.ok { tr with meta := (k, v) :: tr.meta }) := by
  refine ⟨rfl, rfl, ?_, fun s2 => rfl, fun k => rfl⟩
  simp [getMeta]

/-- Counterexample for claim C9: on the concrete transaction T0,
setMeta with a non-string key that has no string key property does not
raise — it succeeds and changes the metadata map, storing under the
string "undefined". -/
theorem setMeta_fail_fast_counterexample :
    setMeta T0 MetaKey.objNoKey 7 =
      Except.ok { T0 with meta := [("undefined", 7)] } ∧
    ({ T0 with meta := [("undefined", 7)] } :
      Transaction Nat Nat (List Nat) Unit Nat).meta ≠ T0.meta :=
  ⟨rfl, by decide⟩

end PMState
